import Mathlib

/-!
Shallow embedding of the oraclesettle-backend service (Rust) and proofs
about its specification claims.

Sources embedded:
* `src/main.rs` — SQLite revision: `try_resolve`, `auto_close_markets`,
  `resolve_markets`, `finalize_market` (settlement + conditional flip,
  direct chain submit, no outbox), `create_batch`.
* `src/notneeded.rs` — Postgres revision (the outbox design the spec
  describes): `finalize_market` with the transactional outbox insert.
* `src/worker.rs` — outbox relay worker per-entry processing.
* `src/proof.rs` — `build_merkle_root` / `hash_leaf`.

Modelling conventions:
* Rust `f64` is modelled by `F`: an exact rational together with the IEEE
  special values `+inf`, `-inf` and `NaN`.  Rounding of arithmetic to 53-bit
  precision and the negative-zero distinction are not modelled; the literal
  `0.01` is modelled as the exact rational `1/100`.
* A Rust panic (an `.unwrap()` on `Err`/`None`) is modelled as `Except.error`.
* External libraries (SHA-256, chrono timestamp parsing/formatting, f64
  `Display`, UUID generation) are taken as opaque function parameters; the
  hex codec, which the worker's validation logic depends on, is implemented
  concretely.
* The SQL store is modelled as lists of rows; a SQL transaction is a single
  Lean function from store to store (all of its writes apply atomically).
-/

/-- Decidable equality for `Except`, used to evaluate the embedded
fallible functions on concrete inputs. -/
instance {ε α : Type} [DecidableEq ε] [DecidableEq α] :
    DecidableEq (Except ε α) := fun x y =>
  match x, y with
  | .ok a, .ok b =>
      if h : a = b then .isTrue (by rw [h])
      else .isFalse (fun hc => by cases hc; exact h rfl)
  | .error a, .error b =>
      if h : a = b then .isTrue (by rw [h])
      else .isFalse (fun hc => by cases hc; exact h rfl)
  | .ok _, .error _ => .isFalse (fun hc => by cases hc)
  | .error _, .ok _ => .isFalse (fun hc => by cases hc)

/-- Model of Rust `f64`: exact rationals plus the IEEE special values.
(Rounding and signed zero are not modelled; `F.num 0` behaves as `+0.0`.) -/
inductive F where
  | nan : F
  | inf : F
  | ninf : F
  | num (q : ℚ) : F
deriving DecidableEq, Repr

/-- Three-way comparison of rationals, mirroring how `PartialOrd` orders two
non-NaN equal/less/greater floats. -/
def qcompare (a b : ℚ) : Ordering :=
  if a < b then .lt else if b < a then .gt else .eq

/-- Model of `f64::partial_cmp`: `none` exactly when an operand is NaN. -/
def fcmp : F → F → Option Ordering
  | .nan, _ => none
  | _, .nan => none
  | .ninf, .ninf => some .eq
  | .ninf, _ => some .lt
  | _, .ninf => some .gt
  | .inf, .inf => some .eq
  | .inf, _ => some .gt
  | _, .inf => some .lt
  | .num a, .num b => some (qcompare a b)

/-- Model of the `<=` operator on `f64` (false whenever an operand is NaN). -/
def F.le (a b : F) : Bool :=
  match fcmp a b with
  | some .lt => true
  | some .eq => true
  | _ => false

/-- IEEE subtraction on the model. -/
def F.sub : F → F → F
  | .nan, _ => .nan
  | _, .nan => .nan
  | .inf, .inf => .nan
  | .inf, _ => .inf
  | .ninf, .ninf => .nan
  | .ninf, _ => .ninf
  | .num _, .inf => .ninf
  | .num _, .ninf => .inf
  | .num a, .num b => .num (a - b)

/-- IEEE division on the model; division by zero yields `±inf` or NaN, never
a panic (the model's zero is `+0.0`). -/
def F.div : F → F → F
  | .nan, _ => .nan
  | _, .nan => .nan
  | .inf, .inf => .nan
  | .inf, .ninf => .nan
  | .ninf, .inf => .nan
  | .ninf, .ninf => .nan
  | .inf, .num b => if b < 0 then .ninf else .inf
  | .ninf, .num b => if b < 0 then .inf else .ninf
  | .num _, .inf => .num 0
  | .num _, .ninf => .num 0
  | .num a, .num b =>
      if b = 0 then (if a = 0 then .nan else if a < 0 then .ninf else .inf)
      else .num (a / b)

/-- IEEE addition on the model. -/
def F.add : F → F → F
  | .nan, _ => .nan
  | _, .nan => .nan
  | .inf, .ninf => .nan
  | .ninf, .inf => .nan
  | .inf, _ => .inf
  | _, .inf => .inf
  | .ninf, _ => .ninf
  | _, .ninf => .ninf
  | .num a, .num b => .num (a + b)

/-- Model of `sorted.iter().sum::<f64>()`: a left fold of `+` from `0.0`. -/
def sumF (l : List F) : F := l.foldl F.add (F.num 0)

/-- One insertion step of the comparison sort in `try_resolve`
(`sorted.sort_by(|a, b| a.partial_cmp(b).unwrap())`, main.rs line 629):
comparing against NaN makes the comparator's `.unwrap()` panic, modelled as
`Except.error`. -/
def insertF (x : F) : List F → Except String (List F)
  | [] => .ok [x]
  | y :: ys =>
      match fcmp x y with
      | none => .error "called Option::unwrap() on a None value"
      | some .lt => .ok (x :: y :: ys)
      | some _ => (insertF x ys).map (y :: ·)

/-- The comparison sort of `try_resolve`, modelled as insertion sort with the
panicking comparator.  For NaN-free inputs this computes the same sorted
value slice (a sorted permutation) as the source's slice sort. -/
def sortF : List F → Except String (List F)
  | [] => .ok []
  | x :: xs => (sortF xs).bind (insertF x)

/-- The relative spread `(max - min) / min` that `try_resolve` computes from
the sorted slice (`diff`, main.rs lines 631-634). -/
def spreadOf (sorted : List F) : F :=
  F.div (F.sub (sorted.getLastD (F.num 0)) (sorted.headD (F.num 0)))
    (sorted.headD (F.num 0))

/-- Embedding of `try_resolve` (src/main.rs lines 623-642; the copy in
src/notneeded.rs lines 1201-1219 is identical): fewer than 3 values is `none`
("no consensus"); otherwise sort (which panics on NaN), compute
`diff = (max - min) / min`, and return the arithmetic mean when
`diff <= 0.01`, else `none`. -/
def try_resolve (values : List F) : Except String (Option F) :=
  if values.length < 3 then .ok none
  else
    match sortF values with
    | .error e => .error e
    | .ok sorted =>
        let diff := spreadOf sorted
        if F.le diff (F.num (1 / 100)) then
          .ok (some (F.div (sumF sorted) (F.num (sorted.length : ℚ))))
        else
          .ok none

/-- Rational mirror of one insertion step of the sort in `try_resolve`,
used to reason about NaN-free inputs. -/
def insertQ (x : ℚ) : List ℚ → List ℚ
  | [] => [x]
  | y :: ys => if x < y then x :: y :: ys else y :: insertQ x ys

/-- Rational mirror of the sort in `try_resolve` on NaN-free inputs. -/
def sortQ : List ℚ → List ℚ
  | [] => []
  | x :: xs => insertQ x (sortQ xs)

theorem insertF_map_num (x : ℚ) : ∀ l : List ℚ,
    insertF (F.num x) (l.map F.num) = .ok ((insertQ x l).map F.num)
  | [] => rfl
  | y :: ys => by
    by_cases h : x < y
    · simp [insertF, insertQ, fcmp, qcompare, h]
    · by_cases h2 : y < x
      · simp [insertF, insertQ, fcmp, qcompare, h, h2, insertF_map_num x ys,
          Except.map]
      · simp [insertF, insertQ, fcmp, qcompare, h, h2, insertF_map_num x ys,
          Except.map]

theorem sortF_map_num : ∀ l : List ℚ,
    sortF (l.map F.num) = .ok ((sortQ l).map F.num)
  | [] => rfl
  | x :: xs => by
    simp [sortF, sortQ, sortF_map_num xs, insertF_map_num x (sortQ xs),
      Except.bind]

theorem insertQ_perm (x : ℚ) :
    ∀ l : List ℚ, List.Perm (insertQ x l) (x :: l)
  | [] => .refl _
  | y :: ys => by
    by_cases h : x < y
    · simp [insertQ, h]
    · rw [insertQ, if_neg h]
      exact ((insertQ_perm x ys).cons y).trans (List.Perm.swap x y ys)

theorem sortQ_perm : ∀ l : List ℚ, List.Perm (sortQ l) l
  | [] => .refl _
  | x :: xs =>
    (insertQ_perm x (sortQ xs)).trans ((sortQ_perm xs).cons x)

theorem insertQ_sorted (x : ℚ) :
    ∀ {l : List ℚ}, l.Sorted (· ≤ ·) → (insertQ x l).Sorted (· ≤ ·)
  | [], _ => by simp [insertQ]
  | y :: ys, h => by
    rw [List.sorted_cons] at h
    by_cases hxy : x < y
    · rw [insertQ, if_pos hxy]
      refine List.sorted_cons.mpr ⟨?_, List.sorted_cons.mpr h⟩
      intro b hb
      rcases List.mem_cons.mp hb with rfl | hb
      · exact le_of_lt hxy
      · exact le_trans (le_of_lt hxy) (h.1 b hb)
    · rw [insertQ, if_neg hxy]
      refine List.sorted_cons.mpr ⟨?_, insertQ_sorted x h.2⟩
      intro b hb
      rcases List.mem_cons.mp ((insertQ_perm x ys).mem_iff.mp hb) with
        rfl | hby
      · exact not_lt.mp hxy
      · exact h.1 b hby

theorem sortQ_sorted : ∀ l : List ℚ, (sortQ l).Sorted (· ≤ ·)
  | [] => List.sorted_nil
  | x :: xs => insertQ_sorted x (sortQ_sorted xs)

theorem headD_mem {α : Type} :
    ∀ {l : List α}, l ≠ [] → ∀ d : α, l.headD d ∈ l
  | [], h, _ => absurd rfl h
  | _ :: _, _, _ => List.mem_cons_self _ _

theorem getLastD_mem {α : Type} :
    ∀ (l : List α), l ≠ [] → ∀ d : α, l.getLastD d ∈ l
  | [], h, _ => absurd rfl h
  | [a], _, d => by simp [List.getLastD]
  | a :: b :: t, _, d => by
    rw [List.getLastD_cons]
    exact List.mem_cons_of_mem a (getLastD_mem (b :: t) (by simp) a)

theorem sorted_headD_le {l : List ℚ} (hs : l.Sorted (· ≤ ·)) {x : ℚ}
    (hx : x ∈ l) (d : ℚ) : l.headD d ≤ x := by
  cases l with
  | nil => cases hx
  | cons a t =>
    rcases List.mem_cons.mp hx with rfl | hx
    · exact le_refl _
    · exact List.rel_of_sorted_cons hs x hx

theorem sorted_le_getLastD :
    ∀ (l : List ℚ), l.Sorted (· ≤ ·) → ∀ x ∈ l, ∀ d : ℚ,
      x ≤ l.getLastD d
  | [], _, x, hx, _ => by cases hx
  | [a], _, x, hx, d => by
    rcases List.mem_cons.mp hx with rfl | h2
    · simp [List.getLastD]
    · cases h2
  | a :: b :: t2, hs, x, hx, d => by
    rw [List.getLastD_cons]
    rcases List.mem_cons.mp hx with rfl | h2
    · exact List.rel_of_sorted_cons hs _ (getLastD_mem (b :: t2) (by simp) x)
    · exact sorted_le_getLastD (b :: t2) (List.sorted_cons.mp hs).2 x h2 a

theorem headD_map_num : ∀ {l : List ℚ}, l ≠ [] →
    (l.map F.num).headD (F.num 0) = F.num (l.headD 0)
  | [], h => absurd rfl h
  | _ :: _, _ => rfl

theorem getLastD_map_num :
    ∀ {l : List ℚ}, l ≠ [] → ∀ d : ℚ,
      (l.map F.num).getLastD (F.num d) = F.num (l.getLastD d)
  | [], h, _ => absurd rfl h
  | [a], _, d => rfl
  | a :: b :: t, _, d => by
    rw [List.map_cons, List.getLastD_cons, List.getLastD_cons]
    exact getLastD_map_num (by simp) a

theorem foldl_add_num : ∀ (l : List ℚ) (a : ℚ),
    List.foldl F.add (F.num a) (l.map F.num) = F.num (a + l.sum)
  | [], a => by simp
  | x :: xs, a => by
    rw [List.map_cons, List.foldl_cons]
    show List.foldl F.add (F.num (a + x)) (xs.map F.num) = _
    rw [foldl_add_num xs (a + x), List.sum_cons]
    ring_nf

theorem sumF_map_num (l : List ℚ) : sumF (l.map F.num) = F.num l.sum := by
  rw [sumF, foldl_add_num l 0, zero_add]

theorem F.le_num_iff (a b : ℚ) : F.le (F.num a) (F.num b) = true ↔ a ≤ b := by
  unfold F.le fcmp qcompare
  by_cases h : a < b
  · simp [h, le_of_lt h]
  · by_cases h2 : b < a
    · simp [h, h2, not_le.mpr h2]
    · simp [h, h2, le_of_not_lt h2]

theorem F.sub_num (a b : ℚ) : F.sub (F.num a) (F.num b) = F.num (a - b) := rfl

theorem F.div_num {b : ℚ} (h : b ≠ 0) (a : ℚ) :
    F.div (F.num a) (F.num b) = F.num (a / b) := by
  simp [F.div, h]

theorem F.div_num_zero_pos {a : ℚ} (h : 0 < a) :
    F.div (F.num a) (F.num 0) = F.inf := by
  simp [F.div, ne_of_gt h, not_lt.mpr (le_of_lt h)]

theorem F.le_inf_num (c : ℚ) : F.le F.inf (F.num c) = false := rfl

theorem F.le_nan_left (x : F) : F.le F.nan x = false := by
  cases x <;> rfl

theorem sortQ_ne_nil {vs : List ℚ} (h : vs ≠ []) : sortQ vs ≠ [] := by
  intro h0
  apply h
  apply List.eq_nil_of_length_eq_zero
  rw [← (sortQ_perm vs).length_eq, h0]
  rfl

theorem sortQ_headD_eq_min {vs : List ℚ} {m : ℚ} (hm : m ∈ vs)
    (hmle : ∀ x ∈ vs, m ≤ x) : (sortQ vs).headD 0 = m := by
  have hne2 : sortQ vs ≠ [] := sortQ_ne_nil (List.ne_nil_of_mem hm)
  exact le_antisymm
    (sorted_headD_le (sortQ_sorted vs) ((sortQ_perm vs).mem_iff.mpr hm) 0)
    (hmle _ ((sortQ_perm vs).mem_iff.mp (headD_mem hne2 0)))

theorem sortQ_getLastD_eq_max {vs : List ℚ} {M : ℚ} (hM : M ∈ vs)
    (hMge : ∀ x ∈ vs, x ≤ M) : (sortQ vs).getLastD 0 = M := by
  have hne2 : sortQ vs ≠ [] := sortQ_ne_nil (List.ne_nil_of_mem hM)
  exact le_antisymm
    (hMge _ ((sortQ_perm vs).mem_iff.mp (getLastD_mem _ hne2 0)))
    (sorted_le_getLastD _ (sortQ_sorted vs) M
      ((sortQ_perm vs).mem_iff.mpr hM) 0)

theorem try_resolve_map_num_eq (vs : List ℚ) (h3 : 3 ≤ vs.length) :
    try_resolve (vs.map F.num) =
      if F.le (spreadOf ((sortQ vs).map F.num)) (F.num (1 / 100)) then
        .ok (some (F.div (F.num vs.sum) (F.num (vs.length : ℚ))))
      else
        .ok none := by
  rw [try_resolve, if_neg (by rw [List.length_map]; omega), sortF_map_num]
  dsimp only
  rw [sumF_map_num, List.length_map, (sortQ_perm vs).length_eq,
    (sortQ_perm vs).sum_eq]

theorem spreadOf_sortQ {vs : List ℚ} {m M : ℚ} (hm : m ∈ vs)
    (hmle : ∀ x ∈ vs, m ≤ x) (hM : M ∈ vs) (hMge : ∀ x ∈ vs, x ≤ M) :
    spreadOf ((sortQ vs).map F.num) = F.div (F.num (M - m)) (F.num m) := by
  have hne2 : sortQ vs ≠ [] := sortQ_ne_nil (List.ne_nil_of_mem hm)
  rw [spreadOf, headD_map_num hne2, getLastD_map_num hne2 0,
    sortQ_headD_eq_min hm hmle, sortQ_getLastD_eq_max hM hMge, F.sub_num]

/-- C1: resolution over a report value list: fewer than 3 values yields
"no consensus" (`none`); with at least 3 (rational, NaN-free) values and
minimum `m ≠ 0` and maximum `M`, a relative spread `(M - m) / m ≤ 0.01`
yields the arithmetic mean of all values, and a spread `> 0.01` yields
"no consensus". -/
theorem try_resolve_spec :
    (∀ ws : List F, ws.length < 3 → try_resolve ws = .ok none) ∧
    (∀ (vs : List ℚ) (m M : ℚ),
      m ∈ vs → (∀ x ∈ vs, m ≤ x) → M ∈ vs → (∀ x ∈ vs, x ≤ M) →
      m ≠ 0 → 3 ≤ vs.length →
      ((M - m) / m ≤ 1 / 100 →
        try_resolve (vs.map F.num) =
          .ok (some (F.num (vs.sum / (vs.length : ℚ))))) ∧
      (1 / 100 < (M - m) / m →
        try_resolve (vs.map F.num) = .ok none)) := by
  constructor
  · intro ws h
    rw [try_resolve, if_pos h]
  · intro vs m M hm hmle hM hMge hm0 h3
    have hsp : spreadOf ((sortQ vs).map F.num) = F.num ((M - m) / m) := by
      rw [spreadOf_sortQ hm hmle hM hMge, F.div_num hm0]
    have hlen : ((vs.length : ℚ)) ≠ 0 := by
      exact_mod_cast Nat.pos_iff_ne_zero.mp (by omega)
    constructor
    · intro hle
      rw [try_resolve_map_num_eq vs h3, hsp,
        if_pos ((F.le_num_iff _ _).mpr hle), F.div_num hlen]
    · intro hlt
      rw [try_resolve_map_num_eq vs h3, hsp, if_neg]
      rw [F.le_num_iff]
      exact not_le.mpr hlt

theorem try_resolve_spec_witness :
    (3 : ℚ) ∈ ([3, 3, 3] : List ℚ) ∧
    try_resolve (([3, 3, 3] : List ℚ).map F.num) =
      .ok (some (F.num (([3, 3, 3] : List ℚ).sum /
        ((([3, 3, 3] : List ℚ).length : ℚ))))) :=
  ⟨by decide,
    (try_resolve_spec.2 [3, 3, 3] 3 3 (by decide) (by decide) (by decide)
      (by decide) (by decide) (by decide)).1
      (by rw [sub_self, zero_div]; norm_num)⟩

/-- C5 counterexample: `try_resolve` has no special case for a zero minimum:
on the size-3 input `[0, 0, 1]` the relative spread it computes is the IEEE
value `+inf` (division of `1` by the zero minimum), so the spread
computation does divide by zero and does produce an infinite spread —
refuting the claim that this is special-cased away.  (The overall result is
still the defined value `none`, because `inf <= 0.01` is false.) -/
theorem try_resolve_no_zero_min_special_case :
    sortF [F.num 0, F.num 0, F.num 1] = .ok [F.num 0, F.num 0, F.num 1] ∧
    spreadOf [F.num 0, F.num 0, F.num 1] = F.inf ∧
    try_resolve [F.num 0, F.num 0, F.num 1] = .ok none := by
  refine ⟨by decide, ?_, ?_⟩
  · norm_num [spreadOf, F.sub, F.div, List.getLastD, List.getLast?,
      List.headD, List.head?, Option.getD]
  · norm_num [try_resolve, sortF, insertF, fcmp, qcompare, spreadOf, sumF,
      F.le, F.sub, F.div, F.add, Except.bind, Except.map, List.getLastD,
      List.getLast?, List.headD, List.head?, List.foldl, Option.getD]

/-- C5 (amended): `try_resolve` does not special-case a zero minimum; the
spread it computes is `+inf` (when `min = 0 < max`) or NaN (when
`max = min = 0`).  Nevertheless, for every report set of size ≥ 3 of
non-negative rationals whose minimum is 0, resolution returns the defined
result "no consensus" (never a panic and never an infinite/NaN outcome),
because the IEEE comparison `spread <= 0.01` is false for both `+inf`
and NaN. -/
theorem try_resolve_zero_min (vs : List ℚ) (h3 : 3 ≤ vs.length)
    (h0 : (0 : ℚ) ∈ vs) (hnn : ∀ x ∈ vs, 0 ≤ x) :
    try_resolve (vs.map F.num) = .ok none := by
  rw [try_resolve_map_num_eq vs h3]
  have hne2 : sortQ vs ≠ [] := sortQ_ne_nil (List.ne_nil_of_mem h0)
  have hLmem : (sortQ vs).getLastD 0 ∈ vs :=
    (sortQ_perm vs).mem_iff.mp (getLastD_mem _ hne2 0)
  have hsp : spreadOf ((sortQ vs).map F.num) =
      F.div (F.num ((sortQ vs).getLastD 0 - 0)) (F.num 0) := by
    rw [spreadOf, headD_map_num hne2, getLastD_map_num hne2 0,
      sortQ_headD_eq_min h0 hnn, F.sub_num]
  rw [hsp, sub_zero]
  rcases lt_or_eq_of_le (hnn _ hLmem) with hpos | hzero
  · rw [F.div_num_zero_pos hpos]
    simp [F.le_inf_num]
  · rw [← hzero]
    simp [F.div, F.le_nan_left]

theorem try_resolve_zero_min_witness :
    (0 : ℚ) ∈ ([0, 0, 2] : List ℚ) ∧
    try_resolve (([0, 0, 2] : List ℚ).map F.num) = .ok none :=
  ⟨by decide,
    try_resolve_zero_min [0, 0, 2] (by decide) (by decide) (by decide)⟩

/-- C10: `try_resolve` is not total over all float inputs: on the length-3
input `[NaN, 1, 2]` the sort comparator's `.unwrap()` panics (modelled as
`Except.error`), while on every NaN-free (rational) input list it returns
normally (`Except.ok`), whatever the length. -/
theorem try_resolve_nan_panic :
    try_resolve [F.nan, F.num 1, F.num 2] =
      .error "called Option::unwrap() on a None value" ∧
    ∀ vs : List ℚ, ∃ r : Option F, try_resolve (vs.map F.num) = .ok r := by
  constructor
  · decide
  · intro vs
    by_cases h3 : vs.length < 3
    · exact ⟨none, by
        rw [try_resolve, if_pos (by rw [List.length_map]; omega)]⟩
    · rw [try_resolve_map_num_eq vs (by omega)]
      by_cases hle :
        F.le (spreadOf ((sortQ vs).map F.num)) (F.num (1 / 100)) = true
      · exact ⟨_, by rw [if_pos hle]⟩
      · exact ⟨none, by rw [if_neg hle]⟩

/-- A digest: a byte string (`[u8; 32]` in the source; SHA-256 output). -/
abbrev Digest := List Nat

/-- The all-zero 32-byte digest `[0u8; 32]` (src/proof.rs line 19). -/
def zeroDigest : Digest := List.replicate 32 0

/-- One level of `build_merkle_root`'s while loop (src/proof.rs lines
22-47): `chunks(2)` pairs adjacent leaves left-to-right, an odd trailing
leaf is paired with itself, and each pair is hashed with SHA-256 over the
concatenation (the SHA-256 compression itself is the opaque parameter
`hash`). -/
def hashLevel (hash : Digest → Digest → Digest) : List Digest → List Digest
  | [] => []
  | [a] => [hash a a]
  | a :: b :: rest => hash a b :: hashLevel hash rest

theorem hashLevel_length (hash : Digest → Digest → Digest) :
    ∀ l : List Digest, (hashLevel hash l).length = (l.length + 1) / 2
  | [] => by simp [hashLevel]
  | [a] => by simp [hashLevel]
  | a :: b :: rest => by
    rw [hashLevel, List.length_cons, hashLevel_length hash rest]
    simp only [List.length_cons]
    omega

/-- The while loop of `build_merkle_root` (src/proof.rs lines 22-49): hash
levels until one digest remains, then return `leaves[0]`. -/
def merkleLoop (hash : Digest → Digest → Digest)
    (leaves : List Digest) : Digest :=
  if leaves.length ≤ 1 then leaves.headD zeroDigest
  else merkleLoop hash (hashLevel hash leaves)
termination_by leaves.length
decreasing_by
  rw [hashLevel_length]
  omega

/-- Embedding of `build_merkle_root` (src/proof.rs lines 15-50): the empty
leaf list yields the all-zero digest, otherwise adjacent pairs are hashed
level by level (odd leaf duplicated) until a single digest remains. -/
def build_merkle_root (hash : Digest → Digest → Digest)
    (leaves : List Digest) : Digest :=
  if leaves.isEmpty then zeroDigest else merkleLoop hash leaves

theorem merkleLoop_step (hash : Digest → Digest → Digest)
    {leaves : List Digest} (h : 2 ≤ leaves.length) :
    merkleLoop hash leaves = merkleLoop hash (hashLevel hash leaves) := by
  rw [merkleLoop]
  rw [if_neg (by omega)]

theorem build_merkle_root_cons (hash : Digest → Digest → Digest)
    (a : Digest) (t : List Digest) :
    build_merkle_root hash (a :: t) = merkleLoop hash (a :: t) := rfl

/-- C3: the Merkle root of the empty leaf list is the all-zero digest, of a
single leaf is that leaf, of `[A, B]` is `hash (A || B)`, of `[A, B, C]` is
`hash (hash (A || B) || hash (C || C))` (odd-leaf duplication), and in
general one while-loop iteration hashes adjacent pairs left-to-right and
recurses on the halved level. -/
theorem build_merkle_root_spec (hash : Digest → Digest → Digest)
    (A B C : Digest) :
    build_merkle_root hash [] = zeroDigest ∧
    build_merkle_root hash [A] = A ∧
    build_merkle_root hash [A, B] = hash A B ∧
    build_merkle_root hash [A, B, C] = hash (hash A B) (hash C C) ∧
    (∀ leaves : List Digest, 2 ≤ leaves.length →
      build_merkle_root hash leaves =
        build_merkle_root hash (hashLevel hash leaves)) := by
  refine ⟨rfl, ?_, ?_, ?_, ?_⟩
  · simp [build_merkle_root, merkleLoop]
  · simp [build_merkle_root, merkleLoop, hashLevel]
  · simp [build_merkle_root, merkleLoop, hashLevel]
  · intro leaves hlen
    match leaves with
    | a :: b :: rest =>
      rw [build_merkle_root_cons, merkleLoop_step hash hlen]
      have : hashLevel hash (a :: b :: rest) =
          hash a b :: hashLevel hash rest := rfl
      rw [this, build_merkle_root_cons]

theorem build_merkle_root_spec_witness :
    2 ≤ ([zeroDigest, zeroDigest] : List Digest).length ∧
    build_merkle_root (fun a b => a ++ b) [zeroDigest, zeroDigest] =
      build_merkle_root (fun a b => a ++ b)
        (hashLevel (fun a b => a ++ b) [zeroDigest, zeroDigest]) :=
  ⟨by decide,
    (build_merkle_root_spec (fun a b => a ++ b) [] [] []).2.2.2.2
      [zeroDigest, zeroDigest] (by decide)⟩

/-- The relay payload written by `finalize_market` and read by the worker
(src/models/outbox.rs lines 3-10). -/
structure SettlementPayload where
  market_id : String
  market_hash_hex : String
  leaf_hex : String
  outcome_u64 : Nat
  ts : Nat
deriving DecidableEq, Repr

/-- The persisted payload column as the worker's serde decode sees it:
either JSON that fails to decode into `SettlementPayload` (with serde's
error text) or a decoded value. -/
inductive PayloadBlob where
  | garbage (err : String)
  | wellFormed (p : SettlementPayload)
deriving DecidableEq, Repr

/-- Value of one hex digit, `none` for a non-hex character. -/
def hexDigit? (c : Char) : Option Nat :=
  if '0' ≤ c ∧ c ≤ '9' then some (c.toNat - 48)
  else if 'a' ≤ c ∧ c ≤ 'f' then some (c.toNat - 87)
  else if 'A' ≤ c ∧ c ≤ 'F' then some (c.toNat - 55)
  else none

/-- Recursion for `hexDecode`: pairs of hex digits to bytes; an odd count
or an invalid character is an error (as in the `hex` crate). -/
def hexDecodeChars : List Char → Except String (List Nat)
  | [] => .ok []
  | [_] => .error "Odd number of digits"
  | a :: b :: rest =>
    match hexDigit? a, hexDigit? b with
    | some hi, some lo => (hexDecodeChars rest).map ((hi * 16 + lo) :: ·)
    | _, _ => .error "Invalid character"

/-- Model of `hex::decode`. -/
def hexDecode (s : String) : Except String (List Nat) :=
  hexDecodeChars s.data

/-- Lower-case hex digit for a nibble, as `hex::encode` produces. -/
def hexDigitChar (n : Nat) : Char :=
  if n < 10 then Char.ofNat (48 + n) else Char.ofNat (87 + n)

/-- Model of `hex::encode`. -/
def hexEncode (bytes : List Nat) : String :=
  String.mk (bytes.foldr
    (fun b acc => hexDigitChar (b / 16) :: hexDigitChar (b % 16) :: acc) [])

/-- Outbox row status (src/notneeded.rs line 1022, src/worker.rs). -/
inductive OutboxStatus where
  | PENDING : OutboxStatus
  | SENT : OutboxStatus
  | FAILED : OutboxStatus
deriving DecidableEq, Repr

/-- An outbox row (table `outbox`, src/notneeded.rs lines 1018-1032). -/
structure OutboxEntry where
  id : String
  market_id : String
  payload : PayloadBlob
  status : OutboxStatus
  retries : Int
  last_error : Option String
  created_at : String
  updated_at : String
deriving DecidableEq, Repr

/-- Outcome of the external ledger call `submit_settlement`
(src/eth/submit.rs), treated as an opaque success-or-failure input. -/
inductive SubmitOutcome where
  | ok : SubmitOutcome
  | err (e : String) : SubmitOutcome
deriving DecidableEq, Repr

/-- The payload decoding/validation pipeline of the relay worker
(src/worker.rs lines 28-107): serde JSON decode, hex-decode of the two hash
fields, then the 32-byte length check; each failure carries the worker's
error message. -/
def decode_payload : PayloadBlob →
    Except String (List Nat × List Nat × Nat × Nat)
  | .garbage e => .error ("bad payload json: " ++ e)
  | .wellFormed p =>
    match hexDecode p.market_hash_hex with
    | .error e => .error ("bad market_hash hex: " ++ e)
    | .ok mh =>
      match hexDecode p.leaf_hex with
      | .error e => .error ("bad leaf hex: " ++ e)
      | .ok lf =>
        if mh.length ≠ 32 ∨ lf.length ≠ 32 then
          .error "hash/leaf wrong length (expected 32 bytes)"
        else .ok (mh, lf, p.outcome_u64, p.ts)

/-- Processing of one drained outbox row by the relay worker
(src/worker.rs lines 23-153), given the outcome the external ledger call
would return: a decode/validation failure marks the row FAILED immediately
(retries untouched); otherwise the ledger is called and success marks SENT
(error cleared) while failure increments `retries` and marks FAILED when
`retries` exceeds 5, else leaves PENDING with the error recorded.  The
`Bool` reports whether `submit_settlement` was called. -/
def process_entry (submit : SubmitOutcome) (e : OutboxEntry)
    (now : String) : OutboxEntry × Bool :=
  match decode_payload e.payload with
  | .error msg =>
    ({ e with status := .FAILED, last_error := some msg,
              updated_at := now }, false)
  | .ok _ =>
    match submit with
    | .ok =>
      ({ e with status := .SENT, last_error := none,
                updated_at := now }, true)
    | .err msg =>
      let next_retries := e.retries + 1
      ({ e with retries := next_retries,
                status := if next_retries > 5 then .FAILED else .PENDING,
                last_error := some msg, updated_at := now }, true)

/-- SQL TEXT comparison used for `ORDER BY created_at` (and for the
`closes_at <= now` filter of the SQLite revision). -/
def textLe (a b : String) : Bool := decide (a < b) || decide (a = b)

def insertByCreated (x : OutboxEntry) :
    List OutboxEntry → List OutboxEntry
  | [] => [x]
  | y :: ys =>
    if textLe x.created_at y.created_at then x :: y :: ys
    else y :: insertByCreated x ys

def sortByCreated : List OutboxEntry → List OutboxEntry
  | [] => []
  | x :: xs => insertByCreated x (sortByCreated xs)

/-- The worker's per-cycle selection (src/worker.rs lines 10-21):
`WHERE status = 'PENDING' ORDER BY created_at ASC LIMIT 10`. -/
def selectPending (outbox : List OutboxEntry) : List OutboxEntry :=
  (sortByCreated (outbox.filter
    (fun e => decide (e.status = .PENDING)))).take 10

theorem mem_insertByCreated {e x : OutboxEntry} :
    ∀ {l : List OutboxEntry}, e ∈ insertByCreated x l → e = x ∨ e ∈ l
  | [], h => by
    rw [insertByCreated] at h
    rcases List.mem_cons.mp h with rfl | h2
    · exact Or.inl rfl
    · cases h2
  | y :: ys, h => by
    rw [insertByCreated] at h
    split at h
    · exact List.mem_cons.mp h
    · rcases List.mem_cons.mp h with rfl | h2
      · exact Or.inr (List.mem_cons_self _ _)
      · rcases mem_insertByCreated h2 with rfl | h3
        · exact Or.inl rfl
        · exact Or.inr (List.mem_cons_of_mem _ h3)

theorem mem_sortByCreated {e : OutboxEntry} :
    ∀ {l : List OutboxEntry}, e ∈ sortByCreated l → e ∈ l
  | [], h => by rw [sortByCreated] at h; cases h
  | x :: xs, h => by
    rw [sortByCreated] at h
    rcases mem_insertByCreated h with rfl | h2
    · exact List.mem_cons_self _ _
    · exact List.mem_cons_of_mem _ (mem_sortByCreated h2)

theorem process_entry_fail_step {e : OutboxEntry}
    {d : List Nat × List Nat × Nat × Nat} (msg now : String)
    (hd : decode_payload e.payload = .ok d) :
    (process_entry (.err msg) e now).1 =
      { e with retries := e.retries + 1,
               status := if e.retries + 1 > 5 then .FAILED else .PENDING,
               last_error := some msg, updated_at := now } := by
  simp [process_entry, hd]

theorem process_entry_iterate {e : OutboxEntry}
    {d : List Nat × List Nat × Nat × Nat} (msg now : String)
    (hd : decode_payload e.payload = .ok d) (h0 : e.retries = 0) :
    ∀ k : Nat,
      ((fun x => (process_entry (.err msg) x now).1)^[k] e).payload =
        e.payload ∧
      ((fun x => (process_entry (.err msg) x now).1)^[k] e).retries = k ∧
      (1 ≤ k →
        ((fun x => (process_entry (.err msg) x now).1)^[k] e).status =
          (if (k : Int) > 5 then .FAILED else .PENDING))
  | 0 => ⟨rfl, by simpa using h0, fun h => absurd h (by omega)⟩
  | k + 1 => by
    have ih := process_entry_iterate msg now hd h0 k
    have hd2 : decode_payload
        (((fun x => (process_entry (.err msg) x now).1)^[k] e).payload) =
          .ok d := by
      rw [ih.1]; exact hd
    have hstep := process_entry_fail_step msg now hd2
    rw [Function.iterate_succ_apply']
    refine ⟨?_, ?_, ?_⟩
    · rw [hstep, ih.1]
    · rw [hstep]
      show ((fun x => (process_entry (.err msg) x now).1)^[k] e).retries + 1
          = ((k : Nat) + 1 : Nat)
      rw [ih.2.1]
      push_cast
      ring
    · intro _
      rw [hstep]
      show (if ((fun x => (process_entry (.err msg) x now).1)^[k] e).retries
            + 1 > 5 then OutboxStatus.FAILED else .PENDING) = _
      rw [ih.2.1]
      have hcast : ((k : Nat) : Int) + 1 = (((k + 1 : Nat) : Nat) : Int) := by
        push_cast
        ring
      rw [hcast]

/-- C4: when the ledger call for a decodable PENDING entry fails, the worker
increments `retries`, records the error, marks the entry FAILED exactly when
the incremented count exceeds the budget 5 and otherwise leaves it PENDING;
consequently an entry starting at `retries = 0` that fails 6 consecutive
relay attempts is PENDING with `retries = k` after each of the first 5
attempts and ends FAILED with `retries = 6` (not PENDING) after the 6th. -/
theorem outbox_retry_budget (msg now : String) :
    (∀ (e : OutboxEntry) (d : List Nat × List Nat × Nat × Nat),
      decode_payload e.payload = .ok d →
      process_entry (.err msg) e now =
        ({ e with retries := e.retries + 1,
                  status := if e.retries + 1 > 5 then .FAILED else .PENDING,
                  last_error := some msg, updated_at := now }, true)) ∧
    (∀ (e : OutboxEntry) (d : List Nat × List Nat × Nat × Nat),
      decode_payload e.payload = .ok d → e.status = .PENDING →
      e.retries = 0 →
      (∀ k : Nat, k ≤ 5 →
        ((fun x => (process_entry (.err msg) x now).1)^[k] e).status =
          .PENDING ∧
        ((fun x => (process_entry (.err msg) x now).1)^[k] e).retries = k) ∧
      ((fun x => (process_entry (.err msg) x now).1)^[6] e).status =
        .FAILED ∧
      ((fun x => (process_entry (.err msg) x now).1)^[6] e).retries = 6) := by
  constructor
  · intro e d hd
    simp [process_entry, hd]
  · intro e d hd hp h0
    refine ⟨?_, ?_, ?_⟩
    · intro k hk
      rcases Nat.eq_zero_or_pos k with rfl | hk1
      · exact ⟨hp, by simpa using h0⟩
      · have h := process_entry_iterate msg now hd h0 k
        refine ⟨?_, h.2.1⟩
        rw [h.2.2 hk1, if_neg (by omega)]
    · rw [(process_entry_iterate msg now hd h0 6).2.2 (by omega),
        if_pos (by omega)]
    · exact (process_entry_iterate msg now hd h0 6).2.1

theorem outbox_retry_budget_witness :
    decode_payload (PayloadBlob.wellFormed
      ⟨"m2", String.mk (List.replicate 64 '0'),
        String.mk (List.replicate 64 '0'), 1, 1⟩) =
      .ok (List.replicate 32 0, List.replicate 32 0, 1, 1) ∧
    ((fun x => (process_entry (.err "io error") x "t").1)^[6]
      ⟨"j2", "m2",
        .wellFormed ⟨"m2", String.mk (List.replicate 64 '0'),
          String.mk (List.replicate 64 '0'), 1, 1⟩,
        .PENDING, 0, none, "c", "c"⟩).status = .FAILED ∧
    ((fun x => (process_entry (.err "io error") x "t").1)^[6]
      ⟨"j2", "m2",
        .wellFormed ⟨"m2", String.mk (List.replicate 64 '0'),
          String.mk (List.replicate 64 '0'), 1, 1⟩,
        .PENDING, 0, none, "c", "c"⟩).retries = 6 :=
  ⟨by decide,
    ((outbox_retry_budget "io error" "t").2
      ⟨"j2", "m2",
        .wellFormed ⟨"m2", String.mk (List.replicate 64 '0'),
          String.mk (List.replicate 64 '0'), 1, 1⟩,
        .PENDING, 0, none, "c", "c"⟩
      (List.replicate 32 0, List.replicate 32 0, 1, 1)
      (by decide) (by decide) (by decide)).2⟩

/-- C6: a decode/validation failure of an outbox payload (malformed JSON,
invalid hex, or a hash field that is not exactly 32 bytes) makes the worker
mark the entry FAILED immediately with the descriptive error, leaving
`retries` untouched and never calling the ledger; only entries whose payload
decodes (to two 32-byte hashes) reach the ledger call; and only PENDING
entries are ever selected for processing, so a FAILED entry is never
retried. -/
theorem outbox_permanent_failure (submit : SubmitOutcome) (now : String) :
    (∀ (e : OutboxEntry) (msg : String),
      decode_payload e.payload = .error msg →
      process_entry submit e now =
        ({ e with status := .FAILED, last_error := some msg,
                  updated_at := now }, false)) ∧
    (∀ (e : OutboxEntry) (d : List Nat × List Nat × Nat × Nat),
      decode_payload e.payload = .ok d →
      (process_entry submit e now).2 = true) ∧
    (∀ msg : String,
      decode_payload (.garbage msg) =
        .error ("bad payload json: " ++ msg)) ∧
    (∀ (p : SettlementPayload) (mh lf : List Nat),
      hexDecode p.market_hash_hex = .ok mh → hexDecode p.leaf_hex = .ok lf →
      (mh.length ≠ 32 ∨ lf.length ≠ 32) →
      decode_payload (.wellFormed p) =
        .error "hash/leaf wrong length (expected 32 bytes)") ∧
    (∀ l : List OutboxEntry, ∀ e ∈ selectPending l,
      e.status = .PENDING) := by
  refine ⟨?_, ?_, ?_, ?_, ?_⟩
  · intro e msg hd
    simp [process_entry, hd]
  · intro e d hd
    cases submit <;> simp [process_entry, hd]
  · intro msg
    rfl
  · intro p mh lf h1 h2 h3
    simp only [decode_payload, h1, h2]
    rw [if_pos h3]
  · intro l e he
    have h1 : e ∈ sortByCreated (l.filter
        (fun e => decide (e.status = .PENDING))) :=
      List.take_subset 10 _ he
    have h2 := List.mem_filter.mp (mem_sortByCreated h1)
    exact of_decide_eq_true h2.2

theorem outbox_permanent_failure_witness :
    decode_payload (PayloadBlob.garbage "boom") =
      .error "bad payload json: boom" ∧
    process_entry .ok
      ⟨"j1", "m1", .garbage "boom", .PENDING, 0, none, "c", "c"⟩ "t" =
      (⟨"j1", "m1", .garbage "boom", .FAILED, 0,
        some "bad payload json: boom", "c", "t"⟩, false) :=
  ⟨by decide,
    (outbox_permanent_failure .ok "t").1
      ⟨"j1", "m1", .garbage "boom", .PENDING, 0, none, "c", "c"⟩
      "bad payload json: boom" (by decide)⟩

/-- Market status; the service only ever writes these three values
(OPEN on create, CLOSED on auto-close, RESOLVED on finalize). -/
inductive MarketStatus where
  | OPEN : MarketStatus
  | CLOSED : MarketStatus
  | RESOLVED : MarketStatus
deriving DecidableEq, Repr

/-- A `markets` row.  `closes_at`/`created_at` hold the stored RFC3339 text
(the SQLite revision stores TEXT and parses on read). -/
structure Market where
  id : String
  question : String
  closes_at : String
  status : MarketStatus
  created_at : String
deriving DecidableEq, Repr

/-- A `reports` row. -/
structure Report where
  id : String
  market_id : String
  source : String
  value : F
  idempotency_key : String
  created_at : String
deriving DecidableEq, Repr

/-- A `settlements` row. -/
structure Settlement where
  id : String
  market_id : String
  outcome : F
  decided_at : String
deriving DecidableEq, Repr

/-- A `batches` row (`merkle_root` stored hex-encoded). -/
structure Batch where
  id : String
  merkle_root : String
  created_at : String
deriving DecidableEq, Repr

/-- A `batch_items` row. -/
structure BatchItem where
  batch_id : String
  market_id : String
deriving DecidableEq, Repr

/-- The relational store: the five logical record sets. -/
structure Store where
  markets : List Market
  reports : List Report
  settlements : List Settlement
  outbox : List OutboxEntry
  batches : List Batch
  batch_items : List BatchItem
deriving DecidableEq, Repr

/-- Per-row effect of the set-based conditional update in
`auto_close_markets` (src/main.rs lines 644-666):
`SET status='CLOSED' WHERE status='OPEN' AND closes_at <= now`
(TEXT comparison). -/
def autoCloseRow (now : String) (m : Market) : Market :=
  if m.status = .OPEN ∧ textLe m.closes_at now then
    { m with status := .CLOSED }
  else m

/-- Embedding of `auto_close_markets` (src/main.rs lines 644-666). -/
def auto_close_markets (now : String) (s : Store) : Store :=
  { s with markets := s.markets.map (autoCloseRow now) }

/-- Per-row effect of the conditional update in `finalize_market`
(`SET status='RESOLVED' WHERE id = ? AND status = 'CLOSED'`,
src/main.rs lines 374-384 and src/notneeded.rs lines 1004-1014). -/
def flipRow (mid : String) (m : Market) : Market :=
  if m.id = mid ∧ m.status = .CLOSED then { m with status := .RESOLVED }
  else m

/-- Embedding of `finalize_market` of the SQLite revision (src/main.rs
lines 349-427): a single transaction inserting the Settlement row and
conditionally flipping the market CLOSED→RESOLVED; the direct chain submit
that follows the commit does not touch the store.  `sid` is the generated
settlement UUID and `nowStr` the `Utc::now().to_rfc3339()` value. -/
def finalize_market (sid nowStr mid : String) (outcome : F)
    (s : Store) : Store :=
  { s with
    settlements :=
      { id := sid, market_id := mid, outcome := outcome,
        decided_at := nowStr } :: s.settlements,
    markets := s.markets.map (flipRow mid) }

/-- Loop body of `resolve_markets` over the fetched CLOSED markets
(src/main.rs lines 315-345): parse `closes_at` (`.unwrap()` panics on an
unparseable value, killing the whole resolver task — modelled by returning
the store reached so far plus the panic message), skip not-yet-due markets,
run `try_resolve` over the market's report values (which itself panics on
NaN), and finalize on consensus.  `parseTs` is the opaque RFC3339 parser
and `mkSid` the opaque UUID source. -/
def resolveGo (parseTs : String → Option Nat) (nowTs : Nat)
    (mkSid : String → String) (nowStr : String) :
    List Market → Store → Store × Option String
  | [], s => (s, none)
  | m :: rest, s =>
    match parseTs m.closes_at with
    | none =>
      (s, some ("resolver panic: unparseable closes_at " ++ m.closes_at))
    | some t =>
      if nowTs < t then resolveGo parseTs nowTs mkSid nowStr rest s
      else
        match try_resolve ((s.reports.filter
            (fun r => decide (r.market_id = m.id))).map
              (fun r => r.value)) with
        | .error e => (s, some e)
        | .ok none => resolveGo parseTs nowTs mkSid nowStr rest s
        | .ok (some outcome) =>
          resolveGo parseTs nowTs mkSid nowStr rest
            (finalize_market (mkSid m.id) nowStr m.id outcome s)

/-- Embedding of `resolve_markets` (src/main.rs lines 300-346): select up
to 10 CLOSED markets, then process each in turn. -/
def resolve_markets (parseTs : String → Option Nat) (nowTs : Nat)
    (mkSid : String → String) (nowStr : String) (s : Store) :
    Store × Option String :=
  resolveGo parseTs nowTs mkSid nowStr
    ((s.markets.filter (fun m => decide (m.status = .CLOSED))).take 10) s

/-- One cycle of the Lifecycle Scheduler `resolver_loop` (src/main.rs
lines 285-297): auto-close expired OPEN markets, then resolve CLOSED
ones. -/
def lifecycle_tick (parseTs : String → Option Nat)
    (mkSid : String → String) (nowStr : String) (nowTs : Nat)
    (s : Store) : Store × Option String :=
  resolve_markets parseTs nowTs mkSid nowStr (auto_close_markets nowStr s)

/-- Rust saturating `as u64` cast from `f64` (`outcome as u64`). -/
def f64_as_u64 : F → Nat
  | .nan => 0
  | .ninf => 0
  | .inf => 2 ^ 64 - 1
  | .num q => if q ≤ 0 then 0 else min (2 ^ 64 - 1) q.floor.toNat

namespace NotneededRs

/-- Embedding of `finalize_market` of the outbox revision
(src/notneeded.rs lines 964-1037): within one transaction insert the
Settlement row, flip the market to RESOLVED conditioned on it still being
CLOSED, and insert the PENDING OutboxEntry (`retries = 0`, no error) whose
JSON payload carries the market id, the hex of SHA-256(market id), the hex
of the leaf hash over `market_id:outcome:now`, the outcome cast to u64 and
the decision timestamp.  `hashStr` is the opaque SHA-256-of-a-string,
`fmtF` the f64 `Display` formatting, `sid`/`oid` the generated UUIDs,
`nowStr`/`ts` the two renderings of `Utc::now()`. -/
def finalize_market (hashStr : String → Digest) (fmtF : F → String)
    (sid oid mid : String) (outcome : F) (nowStr : String) (ts : Nat)
    (s : Store) : Store :=
  { s with
    settlements :=
      { id := sid, market_id := mid, outcome := outcome,
        decided_at := nowStr } :: s.settlements,
    markets := s.markets.map (flipRow mid),
    outbox :=
      { id := oid, market_id := mid,
        payload := .wellFormed
          { market_id := mid,
            market_hash_hex := hexEncode (hashStr mid),
            leaf_hex := hexEncode
              (hashStr (mid ++ ":" ++ fmtF outcome ++ ":" ++ nowStr)),
            outcome_u64 := f64_as_u64 outcome, ts := ts },
        status := .PENDING, retries := 0, last_error := none,
        created_at := nowStr, updated_at := nowStr } :: s.outbox }

end NotneededRs

/-- The anti-join of `create_batch` (src/main.rs lines 545-556 /
src/notneeded.rs lines 1138-1149): settlements with no `batch_items`
row. -/
def unbatched (s : Store) : List Settlement :=
  s.settlements.filter (fun st =>
    !(s.batch_items.any (fun b => decide (b.market_id = st.market_id))))

/-- Embedding of `create_batch` (src/main.rs lines 544-621 and
src/notneeded.rs lines 1137-1199): select the unbatched settlements
(anti-join); if none, do nothing; otherwise hash each settlement's
`market_id:outcome:decided_at` leaf, build the Merkle root, and in one
transaction insert the Batch row and one BatchItem per selected
settlement. -/
def create_batch (hashStr : String → Digest)
    (hash2 : Digest → Digest → Digest) (fmtF : F → String)
    (batch_id nowStr : String) (s : Store) : Store :=
  if (unbatched s).isEmpty then s
  else
    { s with
      batches :=
        { id := batch_id,
          merkle_root := hexEncode (build_merkle_root hash2
            ((unbatched s).map (fun r => hashStr
              (r.market_id ++ ":" ++ fmtF r.outcome ++ ":" ++
                r.decided_at)))),
          created_at := nowStr } :: s.batches,
      batch_items := s.batch_items ++
        (unbatched s).map (fun r =>
          { batch_id := batch_id, market_id := r.market_id }) }

/-- C2: the outbox-revision `finalize_market` performs, as one atomic store
update (one transaction), all three writes: it inserts exactly one
Settlement row for the market, touches market rows only through the
CLOSED-conditioned flip to RESOLVED (a row with another id or a non-CLOSED
status is left unchanged, guarding against concurrent double-resolution),
and inserts exactly one PENDING OutboxEntry with `retries = 0` for the same
market — the settlement count and the relay-job count for the market grow
in lockstep, so a settlement and its relay job can never diverge; nothing
else in the store changes. -/
theorem finalize_market_atomic (hashStr : String → Digest)
    (fmtF : F → String) (sid oid mid : String) (outcome : F)
    (nowStr : String) (ts : Nat) (s : Store) :
    let s' := NotneededRs.finalize_market hashStr fmtF sid oid mid outcome
      nowStr ts s
    (s'.settlements =
      { id := sid, market_id := mid, outcome := outcome,
        decided_at := nowStr } :: s.settlements) ∧
    (s'.settlements.countP (fun st => decide (st.market_id = mid)) =
      s.settlements.countP (fun st => decide (st.market_id = mid)) + 1) ∧
    (s'.outbox.countP (fun e => decide (e.market_id = mid)) =
      s.outbox.countP (fun e => decide (e.market_id = mid)) + 1) ∧
    (∀ e ∈ s'.outbox, e ∉ s.outbox →
      e.market_id = mid ∧ e.status = .PENDING ∧ e.retries = 0 ∧
      e.last_error = none ∧ e.created_at = nowStr ∧
      e.updated_at = nowStr) ∧
    (s'.markets = s.markets.map (flipRow mid)) ∧
    (∀ m : Market, m.id = mid → m.status = .CLOSED →
      flipRow mid m = { m with status := .RESOLVED }) ∧
    (∀ m : Market, ¬(m.id = mid ∧ m.status = .CLOSED) →
      flipRow mid m = m) ∧
    (s'.reports = s.reports ∧ s'.batches = s.batches ∧
      s'.batch_items = s.batch_items) := by
  intro s'
  refine ⟨rfl, ?_, ?_, ?_, rfl, ?_, ?_, rfl, rfl, rfl⟩
  · show List.countP _ (_ :: s.settlements) = _
    rw [List.countP_cons_of_pos]
    simp
  · show List.countP _ (_ :: s.outbox) = _
    rw [List.countP_cons_of_pos]
    simp
  · intro e he hnot
    have : e ∈ (_ : OutboxEntry) :: s.outbox := he
    rcases List.mem_cons.mp this with rfl | h2
    · exact ⟨rfl, rfl, rfl, rfl, rfl, rfl⟩
    · exact absurd h2 hnot
  · intro m h1 h2
    rw [flipRow, if_pos ⟨h1, h2⟩]
  · intro m h
    rw [flipRow, if_neg h]

theorem finalize_market_atomic_witness :
    flipRow "m1"
        { id := "m1", question := "q", closes_at := "c",
          status := .CLOSED, created_at := "t0" } =
      { id := "m1", question := "q", closes_at := "c",
        status := .RESOLVED, created_at := "t0" } ∧
    (NotneededRs.finalize_market (fun _ => zeroDigest) (fun _ => "0")
        "s1" "o1" "m1" (F.num 1) "t1" 1
        (Store.mk [⟨"m1", "q", "c", .CLOSED, "t0"⟩]
          [] [] [] [] [])).outbox.countP
        (fun e => decide (e.market_id = "m1")) =
      (Store.mk [⟨"m1", "q", "c", .CLOSED, "t0"⟩]
        [] [] [] [] []).outbox.countP
        (fun e => decide (e.market_id = "m1")) + 1 := by
  constructor
  · exact (finalize_market_atomic (fun _ => zeroDigest) (fun _ => "0")
      "s1" "o1" "m1" (F.num 1) "t1" 1
      (Store.mk [⟨"m1", "q", "c", .CLOSED, "t0"⟩]
        [] [] [] [] [])).2.2.2.2.2.1
      { id := "m1", question := "q", closes_at := "c",
        status := .CLOSED, created_at := "t0" } (by decide) (by decide)
  · exact (finalize_market_atomic (fun _ => zeroDigest) (fun _ => "0")
      "s1" "o1" "m1" (F.num 1) "t1" 1
      (Store.mk [⟨"m1", "q", "c", .CLOSED, "t0"⟩]
        [] [] [] [] [])).2.2.1

/-- Position of a status in the OPEN → CLOSED → RESOLVED lifecycle. -/
def statusRank : MarketStatus → Nat
  | .OPEN => 0
  | .CLOSED => 1
  | .RESOLVED => 2

/-- One market row either is unchanged or strictly advances along
OPEN → CLOSED → RESOLVED with every other column preserved: the lifecycle
never moves a status backwards. -/
def RowStep (a b : Market) : Prop :=
  b = a ∨
  (statusRank a.status < statusRank b.status ∧ b.id = a.id ∧
    b.question = a.question ∧ b.closes_at = a.closes_at ∧
    b.created_at = a.created_at)

theorem rowStep_refl (a : Market) : RowStep a a := Or.inl rfl

theorem rowStep_trans {a b c : Market} (h1 : RowStep a b)
    (h2 : RowStep b c) : RowStep a c := by
  rcases h1 with rfl | h1
  · exact h2
  · rcases h2 with rfl | h2
    · exact Or.inr h1
    · exact Or.inr ⟨lt_trans h1.1 h2.1, h2.2.1.trans h1.2.1,
        h2.2.2.1.trans h1.2.2.1, h2.2.2.2.1.trans h1.2.2.2.1,
        h2.2.2.2.2.trans h1.2.2.2.2⟩

theorem rowStep_rank_le {a b : Market} (h : RowStep a b) :
    statusRank a.status ≤ statusRank b.status := by
  rcases h with rfl | h
  · exact le_refl _
  · exact le_of_lt h.1

theorem rowStep_resolved_fixed {a b : Market} (h : RowStep a b)
    (hr : a.status = .RESOLVED) : b = a := by
  rcases h with rfl | h
  · rfl
  · exfalso
    have hlt := h.1
    rw [hr] at hlt
    have hle : statusRank b.status ≤ 2 := by
      cases b.status <;> simp [statusRank]
    have h2 : statusRank MarketStatus.RESOLVED = 2 := rfl
    rw [h2] at hlt
    omega

theorem forall₂_rowStep_refl (l : List Market) :
    List.Forall₂ RowStep l l :=
  List.forall₂_same.mpr (fun x _ => rowStep_refl x)

theorem forall₂_rowStep_trans :
    ∀ {l1 l2 l3 : List Market}, List.Forall₂ RowStep l1 l2 →
      List.Forall₂ RowStep l2 l3 → List.Forall₂ RowStep l1 l3 := by
  intro l1 l2 l3 h1
  induction h1 generalizing l3 with
  | nil =>
    intro h2
    cases h2
    exact .nil
  | cons ha htail ih =>
    intro h2
    cases h2 with
    | cons hb htail2 => exact .cons (rowStep_trans ha hb) (ih htail2)

theorem forall₂_rowStep_map (f : Market → Market)
    (hf : ∀ m, RowStep m (f m)) :
    ∀ l : List Market, List.Forall₂ RowStep l (l.map f)
  | [] => .nil
  | x :: xs => .cons (hf x) (forall₂_rowStep_map f hf xs)

theorem autoCloseRow_rowStep (now : String) (m : Market) :
    RowStep m (autoCloseRow now m) := by
  rw [autoCloseRow]
  split
  · next h => exact Or.inr ⟨by rw [h.1]; simp [statusRank], rfl, rfl,
      rfl, rfl⟩
  · exact rowStep_refl m

theorem flipRow_rowStep (mid : String) (m : Market) :
    RowStep m (flipRow mid m) := by
  rw [flipRow]
  split
  · next h => exact Or.inr ⟨by rw [h.2]; simp [statusRank], rfl, rfl,
      rfl, rfl⟩
  · exact rowStep_refl m

theorem resolveGo_markets_step (parseTs : String → Option Nat)
    (nowTs : Nat) (mkSid : String → String) (nowStr : String) :
    ∀ (sel : List Market) (s : Store),
      List.Forall₂ RowStep s.markets
        ((resolveGo parseTs nowTs mkSid nowStr sel s).1.markets)
  | [], s => forall₂_rowStep_refl _
  | m :: rest, s => by
    rw [resolveGo]
    cases parseTs m.closes_at with
    | none => exact forall₂_rowStep_refl _
    | some t =>
      dsimp only
      split
      · exact resolveGo_markets_step parseTs nowTs mkSid nowStr rest s
      · split
        · exact forall₂_rowStep_refl _
        · exact resolveGo_markets_step parseTs nowTs mkSid nowStr rest s
        · rename_i outcome heq
          exact @forall₂_rowStep_trans s.markets
            (finalize_market (mkSid m.id) nowStr m.id outcome s).markets _
            (forall₂_rowStep_map _ (flipRow_rowStep m.id) s.markets)
            (resolveGo_markets_step parseTs nowTs mkSid nowStr rest _)

theorem lifecycle_tick_markets_step (parseTs : String → Option Nat)
    (mkSid : String → String) (nowStr : String) (nowTs : Nat) (s : Store) :
    List.Forall₂ RowStep s.markets
      ((lifecycle_tick parseTs mkSid nowStr nowTs s).1.markets) :=
  @forall₂_rowStep_trans s.markets
    ((auto_close_markets nowStr s).markets) _
    (forall₂_rowStep_map _ (autoCloseRow_rowStep nowStr) s.markets)
    (resolveGo_markets_step parseTs nowTs mkSid nowStr _ _)

/-- C7: market status only moves forward along OPEN → CLOSED → RESOLVED:
auto-close changes only OPEN rows whose `closes_at` has passed (setting
them CLOSED), the finalize flip changes only CLOSED rows (setting them
RESOLVED), a `RowStep` never lowers the status rank, a full Lifecycle
Scheduler tick advances every market row along the order with all other
columns intact (so repeated ticks stay monotone), an already-RESOLVED row
is left exactly unchanged by a tick, and the Batching Scheduler never
touches market rows. -/
theorem market_lifecycle_monotone (parseTs : String → Option Nat)
    (mkSid : String → String) (nowStr : String) (nowTs : Nat) (s : Store) :
    (∀ m : Market, ¬(m.status = .OPEN ∧ textLe m.closes_at nowStr) →
      autoCloseRow nowStr m = m) ∧
    (∀ m : Market, m.status = .OPEN → textLe m.closes_at nowStr = true →
      autoCloseRow nowStr m = { m with status := .CLOSED }) ∧
    (∀ (mid : String) (m : Market), m.status ≠ .CLOSED →
      flipRow mid m = m) ∧
    (∀ a b : Market, RowStep a b →
      statusRank a.status ≤ statusRank b.status) ∧
    List.Forall₂ RowStep s.markets
      ((lifecycle_tick parseTs mkSid nowStr nowTs s).1.markets) ∧
    (∀ (i : Nat) (h1 : i < s.markets.length)
      (h2 : i <
        (lifecycle_tick parseTs mkSid nowStr nowTs s).1.markets.length),
      (s.markets.get ⟨i, h1⟩).status = .RESOLVED →
      (lifecycle_tick parseTs mkSid nowStr nowTs s).1.markets.get
          ⟨i, h2⟩ =
        s.markets.get ⟨i, h1⟩) ∧
    (∀ (hashStr : String → Digest) (hash2 : Digest → Digest → Digest)
      (fmtF : F → String) (bid t : String),
      (create_batch hashStr hash2 fmtF bid t s).markets = s.markets) := by
  refine ⟨?_, ?_, ?_, ?_, lifecycle_tick_markets_step _ _ _ _ _, ?_, ?_⟩
  · intro m h
    rw [autoCloseRow, if_neg h]
  · intro m h1 h2
    rw [autoCloseRow, if_pos ⟨h1, h2⟩]
  · intro mid m h
    rw [flipRow, if_neg (fun hc => h hc.2)]
  · intro a b h
    exact rowStep_rank_le h
  · intro i h1 h2 hres
    exact rowStep_resolved_fixed
      ((lifecycle_tick_markets_step parseTs mkSid nowStr nowTs s).get
        h1 h2) hres
  · intro hashStr hash2 fmtF bid t
    rw [create_batch]
    split <;> rfl

theorem market_lifecycle_monotone_witness :
    flipRow "x"
        { id := "m9", question := "q", closes_at := "c",
          status := .RESOLVED, created_at := "t" } =
      { id := "m9", question := "q", closes_at := "c",
        status := .RESOLVED, created_at := "t" } :=
  (market_lifecycle_monotone (fun _ => none) (fun i => i) "n" 0
    (Store.mk [] [] [] [] [] [])).2.2.1 "x"
    { id := "m9", question := "q", closes_at := "c",
      status := .RESOLVED, created_at := "t" } (by decide)

theorem unbatched_create_batch (hashStr : String → Digest)
    (hash2 : Digest → Digest → Digest) (fmtF : F → String)
    (bid t : String) (s : Store) :
    unbatched (create_batch hashStr hash2 fmtF bid t s) = [] := by
  by_cases he : (unbatched s).isEmpty
  · rw [create_batch, if_pos he]
    exact List.isEmpty_iff.mp he
  · rw [create_batch, if_neg he]
    apply List.filter_eq_nil_iff.mpr
    intro st hst
    intro hcontra
    have hst2 : st ∈ s.settlements := hst
    have hany : (s.batch_items ++ (unbatched s).map
        (fun r => ({ batch_id := bid, market_id := r.market_id } :
          BatchItem))).any
        (fun b => decide (b.market_id = st.market_id)) = true := by
      rw [List.any_append, Bool.or_eq_true]
      by_cases hu : st ∈ unbatched s
      · right
        exact List.any_eq_true.mpr
          ⟨⟨bid, st.market_id⟩, List.mem_map.mpr ⟨st, hu, rfl⟩, by simp⟩
      · left
        by_cases hp : s.batch_items.any
            (fun b => decide (b.market_id = st.market_id)) = true
        · exact hp
        · exfalso
          apply hu
          apply List.mem_filter.mpr
          refine ⟨hst2, ?_⟩
          simp only [Bool.not_eq_true] at hp
          rw [hp]
          rfl
    rw [Bool.not_eq_true'] at hcontra
    have hcontra2 : (s.batch_items ++ (unbatched s).map
        (fun r => ({ batch_id := bid, market_id := r.market_id } :
          BatchItem))).any
        (fun b => decide (b.market_id = st.market_id)) = false := hcontra
    rw [hany] at hcontra2
    cases hcontra2

theorem create_batch_noop (hashStr : String → Digest)
    (hash2 : Digest → Digest → Digest) (fmtF : F → String)
    (bid t : String) (s : Store) (h : unbatched s = []) :
    create_batch hashStr hash2 fmtF bid t s = s := by
  rw [create_batch, if_pos (by rw [h]; rfl)]

/-- C8: the Batching Scheduler selects exactly the settlements with no
existing BatchItem (each selected settlement's market has no `batch_items`
row), does nothing when none exists, preserves the at-most-one-BatchItem-
per-market invariant, and is idempotent: immediately re-running
`create_batch` on its own output changes nothing — no new Batch row and no
new BatchItem for any already-batched settlement. -/
theorem create_batch_once (hashStr : String → Digest)
    (hash2 : Digest → Digest → Digest) (fmtF : F → String)
    (b1 t1 b2 t2 : String) (s : Store)
    (hset : (s.settlements.map (fun st => st.market_id)).Nodup)
    (hitems : (s.batch_items.map (fun b => b.market_id)).Nodup) :
    (∀ r ∈ unbatched s,
      s.batch_items.any (fun b => decide (b.market_id = r.market_id)) =
        false) ∧
    (unbatched s = [] → create_batch hashStr hash2 fmtF b1 t1 s = s) ∧
    (((create_batch hashStr hash2 fmtF b1 t1 s).batch_items.map
        (fun b => b.market_id)).Nodup) ∧
    create_batch hashStr hash2 fmtF b2 t2
        (create_batch hashStr hash2 fmtF b1 t1 s) =
      create_batch hashStr hash2 fmtF b1 t1 s := by
  refine ⟨?_, ?_, ?_, ?_⟩
  · intro r hr
    have h2 := (List.mem_filter.mp hr).2
    rwa [Bool.not_eq_true'] at h2
  · exact create_batch_noop hashStr hash2 fmtF b1 t1 s
  · by_cases he : (unbatched s).isEmpty
    · rw [create_batch, if_pos he]
      exact hitems
    · rw [create_batch, if_neg he]
      show ((s.batch_items ++ (unbatched s).map
          (fun r => ({ batch_id := b1, market_id := r.market_id } :
            BatchItem))).map
        (fun b => b.market_id)).Nodup
      rw [List.map_append, List.map_map]
      apply List.nodup_append.mpr
      refine ⟨hitems, ?_, ?_⟩
      · have hsub : List.Sublist
            ((unbatched s).map (fun r => r.market_id))
            (s.settlements.map (fun st => st.market_id)) :=
          List.Sublist.map _ (List.filter_sublist s.settlements)
        exact hset.sublist hsub
      · intro x hx1 hx2
        rcases List.mem_map.mp hx2 with ⟨r, hr, hxr⟩
        rcases List.mem_map.mp hx1 with ⟨b, hb, hbx⟩
        have hxr2 : r.market_id = x := hxr
        have hany := (List.mem_filter.mp hr).2
        rw [Bool.not_eq_true'] at hany
        exact List.any_eq_false.mp hany b hb
          (decide_eq_true (hbx.trans hxr2.symm))
  · exact create_batch_noop hashStr hash2 fmtF b2 t2 _
      (unbatched_create_batch hashStr hash2 fmtF b1 t1 s)

theorem create_batch_once_witness :
    create_batch (fun _ => zeroDigest) (fun a _ => a) (fun _ => "1")
        "b2" "t2"
        (create_batch (fun _ => zeroDigest) (fun a _ => a) (fun _ => "1")
          "b1" "t1"
          (Store.mk [] [] [⟨"s1", "m1", F.num 1, "d1"⟩] [] [] [])) =
      create_batch (fun _ => zeroDigest) (fun a _ => a) (fun _ => "1")
        "b1" "t1"
        (Store.mk [] [] [⟨"s1", "m1", F.num 1, "d1"⟩] [] [] []) :=
  (create_batch_once (fun _ => zeroDigest) (fun a _ => a) (fun _ => "1")
    "b1" "t1" "b2" "t2"
    (Store.mk [] [] [⟨"s1", "m1", F.num 1, "d1"⟩] [] [] [])
    (by decide) (by decide)).2.2.2

/-- C9 (refuted by the code; evaluation at the failing input): in the
SQLite revision, one CLOSED market whose stored `closes_at` text is
unparseable makes `resolve_markets` panic through `.unwrap()` and halt the
whole resolver loop: the returned panic aborts the cycle with the store
untouched, so the later CLOSED market `m2` — due and with a unanimous
report set `try_resolve` would resolve — is not processed at all,
contradicting the claim that one bad row aborts only that item's
processing. -/
theorem resolve_markets_panics_on_bad_closes_at :
    resolve_markets (fun str => if str = "50" then some 50 else none) 100
        (fun mid => mid ++ "-sid")
        "now"
        (Store.mk
          [⟨"m1", "q1", "garbage", .CLOSED, "t1"⟩,
            ⟨"m2", "q2", "50", .CLOSED, "t2"⟩]
          [⟨"r1", "m2", "a", F.num 5, "k1", "t3"⟩,
            ⟨"r2", "m2", "b", F.num 5, "k2", "t4"⟩,
            ⟨"r3", "m2", "c", F.num 5, "k3", "t5"⟩]
          [] [] [] []) =
      (Store.mk
        [⟨"m1", "q1", "garbage", .CLOSED, "t1"⟩,
          ⟨"m2", "q2", "50", .CLOSED, "t2"⟩]
        [⟨"r1", "m2", "a", F.num 5, "k1", "t3"⟩,
          ⟨"r2", "m2", "b", F.num 5, "k2", "t4"⟩,
          ⟨"r3", "m2", "c", F.num 5, "k3", "t5"⟩]
        [] [] [] [],
        some "resolver panic: unparseable closes_at garbage") ∧
    try_resolve [F.num 5, F.num 5, F.num 5] = .ok (some (F.num 5)) := by
  constructor
  · decide
  · norm_num [try_resolve, sortF, insertF, fcmp, qcompare, spreadOf, sumF,
      F.le, F.sub, F.div, F.add, Except.bind, Except.map, List.getLastD,
      List.getLast?, List.headD, List.head?, List.foldl, Option.getD]
